import Mathlib

/- Shallow embedding of the IMC-Prosperity3 trading engine (src/Trader.py)
   and of the cross-currency arbitrage scanner (src/manual_trading.py).
   Prices appearing in order books are integers; derived prices (mid-prices,
   moving averages, volume-weighted average prices) are rationals, embedding
   the source's real arithmetic.  Order books are association lists
   price ↦ quantity, one per side; Python's `sorted` over dict items is
   embedded as insertion sort by key (dict keys are unique). -/

namespace Spec2Proof

/-- One side of an order book is a price ↦ quantity association list;
an `OrderDepth` holds the two sides, as in datamodel.OrderDepth. -/
structure OrderDepth where
  buy_orders : List (ℤ × ℤ)
  sell_orders : List (ℤ × ℤ)

/-- An order as produced by the trader: symbol, price, signed quantity. -/
structure Order where
  symbol : String
  price : ℚ
  quantity : ℤ

/-- The per-instrument mutable state of the Trader class (Trader.__init__):
price and moving-average histories, position, FIFO cost-basis ledger,
realized PnL and the SeaShells cash balance. -/
structure TraderState where
  price_history : List ℚ
  short_ma_history : List ℚ
  long_ma_history : List ℚ
  position : ℤ
  cost_basis : List (ℚ × ℤ)
  realized_pnl : ℚ
  seashells_balance : ℚ

/-- The part of datamodel.TradingState that Trader.run reads. -/
structure TradingState where
  order_depths : List (String × OrderDepth)
  position : List (String × ℤ)

/-- Position limit configured in Trader.__init__. -/
def max_position : ℤ := 50

/-- Short moving-average window configured in Trader.__init__. -/
def short_window : ℕ := 5

/-- Long moving-average window (also the history capacity). -/
def long_window : ℕ := 20

/-- Deviation threshold (2 %) configured in Trader.__init__. -/
def deviation_threshold : ℚ := 2 / 100

/-- The fresh state built by Trader.__init__. -/
def initState : TraderState :=
  { price_history := [], short_ma_history := [], long_ma_history := []
    position := 0, cost_basis := [], realized_pnl := 0, seashells_balance := 0 }

/-- Python max over the keys of a non-empty price ↦ quantity dict
(the value 0 for an empty dict is never used by the callers). -/
def keyMax : List (ℤ × ℤ) → ℤ
  | [] => 0
  | p :: ps => ps.foldl (fun m q => max m q.1) p.1

/-- Python min over the keys of a non-empty price ↦ quantity dict. -/
def keyMin : List (ℤ × ℤ) → ℤ
  | [] => 0
  | p :: ps => ps.foldl (fun m q => min m q.1) p.1

/-- Trader.calculate_mid_price: None when either side is empty, else the
average of the best bid (max buy key) and best ask (min sell key). -/
def calculate_mid_price (order_depth : OrderDepth) : Option ℚ :=
  if order_depth.buy_orders = [] ∨ order_depth.sell_orders = [] then none
  else
    let best_bid := keyMax order_depth.buy_orders
    let best_ask := keyMin order_depth.sell_orders
    some (((best_bid : ℚ) + (best_ask : ℚ)) / 2)

/-- Mean of a list of rationals (statistics.mean). -/
def listMean (l : List ℚ) : ℚ := l.sum / (l.length : ℚ)

/-- Append to a collections.deque with maxlen: the oldest entries are
evicted from the left once the capacity is exceeded. -/
def appendBounded (maxlen : ℕ) (l : List ℚ) (x : ℚ) : List ℚ :=
  let l2 := l ++ [x]
  if maxlen < l2.length then l2.drop (l2.length - maxlen) else l2

/-- Trader.update_moving_averages: append the mid-price to the price
history, then append the short and long moving averages (bootstrapped with
the raw mid-price while too few samples exist). -/
def update_moving_averages (s : TraderState) (mid_price : ℚ) : TraderState :=
  let price_history := appendBounded long_window s.price_history mid_price
  let short_ma :=
    if short_window ≤ price_history.length then
      listMean (price_history.drop (price_history.length - short_window))
    else mid_price
  let long_ma :=
    if long_window ≤ price_history.length then listMean price_history
    else mid_price
  { s with
    price_history := price_history
    short_ma_history := appendBounded long_window s.short_ma_history short_ma
    long_ma_history := appendBounded long_window s.long_ma_history long_ma }

/-- Python negative indexing l[-k] on a list of length ≥ k
(the default 0 is never reached by the guarded callers). -/
def getNeg (l : List ℚ) (k : ℕ) : ℚ := l.getD (l.length - k) 0

/-- Trader.detect_signal, exactly as written in the source: note that
previous_long_ma reads long_ma_history[-1] (the current entry), not [-2]. -/
def detect_signal (s : TraderState) (mid_price : ℚ) : String :=
  if s.short_ma_history.length < 2 ∨ s.long_ma_history.length < 2 then "HOLD"
  else
    let current_short_ma := getNeg s.short_ma_history 1
    let previous_short_ma := getNeg s.short_ma_history 2
    let current_long_ma := getNeg s.long_ma_history 1
    let previous_long_ma := getNeg s.long_ma_history 1
    let fair_value := current_long_ma
    if previous_short_ma ≤ previous_long_ma ∧ current_short_ma > current_long_ma then
      if mid_price < fair_value * (1 - deviation_threshold) then "BUY" else "HOLD"
    else if previous_short_ma ≥ previous_long_ma ∧ current_short_ma < current_long_ma then
      if mid_price > fair_value * (1 + deviation_threshold) then "SELL" else "HOLD"
    else "HOLD"

/-- Modelled from the spec: the canonical two-point crossover detector of
§4.2, identical to `detect_signal` except that the previous long moving
average is the true immediately-preceding entry long_ma_history[-2]. -/
def detect_signal_spec (s : TraderState) (mid_price : ℚ) : String :=
  if s.short_ma_history.length < 2 ∨ s.long_ma_history.length < 2 then "HOLD"
  else
    let current_short_ma := getNeg s.short_ma_history 1
    let previous_short_ma := getNeg s.short_ma_history 2
    let current_long_ma := getNeg s.long_ma_history 1
    let previous_long_ma := getNeg s.long_ma_history 2
    let fair_value := current_long_ma
    if previous_short_ma ≤ previous_long_ma ∧ current_short_ma > current_long_ma then
      if mid_price < fair_value * (1 - deviation_threshold) then "BUY" else "HOLD"
    else if previous_short_ma ≥ previous_long_ma ∧ current_short_ma < current_long_ma then
      if mid_price > fair_value * (1 + deviation_threshold) then "SELL" else "HOLD"
    else "HOLD"

/-- Insert a (price, quantity) pair into a list sorted ascending by price. -/
def insertAsc (x : ℤ × ℤ) : List (ℤ × ℤ) → List (ℤ × ℤ)
  | [] => [x]
  | y :: ys => if x.1 ≤ y.1 then x :: y :: ys else y :: insertAsc x ys

/-- Python sorted(dict.items()): sort by key ascending (keys are unique). -/
def sortAsc : List (ℤ × ℤ) → List (ℤ × ℤ)
  | [] => []
  | x :: xs => insertAsc x (sortAsc xs)

/-- Insert a (price, quantity) pair into a list sorted descending by price. -/
def insertDesc (x : ℤ × ℤ) : List (ℤ × ℤ) → List (ℤ × ℤ)
  | [] => [x]
  | y :: ys => if y.1 ≤ x.1 then x :: y :: ys else y :: insertDesc x ys

/-- Python sorted(dict.items(), reverse=True): sort by key descending. -/
def sortDesc : List (ℤ × ℤ) → List (ℤ × ℤ)
  | [] => []
  | x :: xs => insertDesc x (sortDesc xs)

/-- The level-walking loop of Trader.simulate_execution, carried state
(total_cost, remaining, filled); one step consumes min(remaining, |qty|)
at the level's price and the loop stops once remaining ≤ 0. -/
def walk : List (ℤ × ℤ) → ℚ → ℤ → ℤ → ℚ × ℤ × ℤ
  | [], total_cost, remaining, filled => (total_cost, remaining, filled)
  | (price, qty) :: rest, total_cost, remaining, filled =>
    if remaining ≤ 0 then (total_cost, remaining, filled)
    else
      let available := |qty|
      let trade_qty := min remaining available
      walk rest (total_cost + (price : ℚ) * (trade_qty : ℚ))
        (remaining - trade_qty) (filled + trade_qty)

/-- Trader.simulate_execution: walk the ask side ascending (buy) or the
bid side descending (sell), return (volume-weighted average price, signed
filled quantity); price is 0 when nothing is filled. -/
def simulate_execution (order_depth : OrderDepth) (volume : ℤ) (is_buy : Bool) :
    ℚ × ℤ :=
  let orders := if is_buy then sortAsc order_depth.sell_orders
                else sortDesc order_depth.buy_orders
  let direction : ℤ := if is_buy then 1 else -1
  let r := walk orders 0 |volume| 0
  let filled := r.2.2
  let avg_price := if 0 < filled then r.1 / (filled : ℚ) else 0
  (avg_price, direction * filled)

/-- The while-loop of the sell branch of Trader.update_position_and_pnl:
drain the FIFO ledger from the front, returning the deltas to
(realized_pnl, seashells_balance) and the remaining ledger. -/
def sellLoop (price : ℚ) : ℤ → List (ℚ × ℤ) → ℚ × ℚ × List (ℚ × ℤ)
  | _, [] => (0, 0, [])
  | volume_left, (basis_price, basis_qty) :: rest =>
    if volume_left ≤ 0 then (0, 0, (basis_price, basis_qty) :: rest)
    else
      let qty_to_close := min volume_left basis_qty
      let profit := (price - basis_price) * (qty_to_close : ℚ)
      if qty_to_close = basis_qty then
        let r := sellLoop price (volume_left - qty_to_close) rest
        (profit + r.1, price * (qty_to_close : ℚ) + r.2.1, r.2.2)
      else
        (profit, price * (qty_to_close : ℚ),
          (basis_price, basis_qty - qty_to_close) :: rest)

/-- Trader.update_position_and_pnl: update the position, then push a lot
on a buy or drain the FIFO ledger on a sell, updating realized PnL and the
cash balance transactionally. -/
def update_position_and_pnl (s : TraderState) (price : ℚ) (volume : ℤ) :
    TraderState :=
  let s := { s with position := s.position + volume }
  if 0 < volume then
    { s with
      cost_basis := s.cost_basis ++ [(price, volume)]
      seashells_balance := s.seashells_balance - price * (volume : ℚ) }
  else if volume < 0 then
    let r := sellLoop price |volume| s.cost_basis
    { s with
      realized_pnl := s.realized_pnl + r.1
      seashells_balance := s.seashells_balance + r.2.1
      cost_basis := r.2.2 }
  else s

/-- Trader.generate_orders: at most one order, clipped to base size 10 and
the remaining headroom to the position limit on the signaled side; the
fill is simulated against the live book and applied to the state. -/
def generate_orders (order_depth : OrderDepth) (signal : String)
    (s : TraderState) : List Order × TraderState :=
  let base_size : ℤ := 10
  if signal = "BUY" ∧ s.position < max_position then
    let size := min base_size (max_position - s.position)
    if 0 < size then
      let r := simulate_execution order_depth size true
      if 0 < r.2 then
        ([{ symbol := "SQUID_INK", price := r.1, quantity := r.2 }],
          update_position_and_pnl s r.1 r.2)
      else ([], s)
    else ([], s)
  else if signal = "SELL" ∧ -max_position < s.position then
    let size := min base_size (max_position + s.position)
    if 0 < size then
      let r := simulate_execution order_depth (-size) false
      if r.2 < 0 then
        ([{ symbol := "SQUID_INK", price := r.1, quantity := r.2 }],
          update_position_and_pnl s r.1 r.2)
      else ([], s)
    else ([], s)
  else ([], s)

/-- Trader.run for one tick: resync the position from the driver's state,
then (when the SQUID_INK book exists and has both sides) update the
histories, detect the signal and generate orders; otherwise return the
empty result untouched.  Returns ((orders dict, conversions, custom
string), new trader state). -/
def run (state : TradingState) (s0 : TraderState) :
    (List (String × List Order) × ℤ × String) × TraderState :=
  let result : List (String × List Order) := [("SQUID_INK", [])]
  let s1 := { s0 with position := (state.position.lookup "SQUID_INK").getD 0 }
  match state.order_depths.lookup "SQUID_INK" with
  | none => ((result, 0, ""), s1)
  | some order_depth =>
    match calculate_mid_price order_depth with
    | none => ((result, 0, ""), s1)
    | some mid_price =>
      let s2 := update_moving_averages s1 mid_price
      let signal := detect_signal s2 mid_price
      let r := generate_orders order_depth signal s2
      (([("SQUID_INK", r.1)], 0, ""), r.2)

/-! Helper notions: observables of the embedded state, fill sequences, and
the cross-currency arbitrage scanner of src/manual_trading.py. -/

/-- Total available quantity (sum of magnitudes) on one book side. -/
def availQty (l : List (ℤ × ℤ)) : ℤ := (l.map (fun p => |p.2|)).sum

/-- Total lot quantity held in a cost-basis ledger. -/
def lotSum (l : List (ℚ × ℤ)) : ℤ := (l.map Prod.snd).sum

/-- Total entry cost of the lots held in a cost-basis ledger. -/
def basisValue (l : List (ℚ × ℤ)) : ℚ :=
  (l.map (fun x => x.1 * (x.2 : ℚ))).sum

/-- Fold a list of (price, volume) fills through update_position_and_pnl. -/
def applyFills (s : TraderState) : List (ℚ × ℤ) → TraderState
  | [] => s
  | f :: rest => applyFills (update_position_and_pnl s f.1 f.2) rest

/-- A fill sequence is good when no sell fill asks for more quantity than
the ledger holds at the moment it is applied. -/
def goodFills (s : TraderState) : List (ℚ × ℤ) → Bool
  | [] => true
  | f :: rest =>
    (decide (f.2 < 0 → -f.2 ≤ lotSum s.cost_basis)) &&
      goodFills (update_position_and_pnl s f.1 f.2) rest

/-- The four currencies of the conversion table in src/manual_trading.py. -/
inductive Currency where
  | Snowballs
  | Pizzas
  | SiliconNuggets
  | SeaShells
deriving DecidableEq

/-- The static conversion-rate table of src/manual_trading.py. -/
def conversion_rates : Currency → Currency → ℚ
  | .Snowballs, .Snowballs => 1
  | .Snowballs, .Pizzas => 145 / 100
  | .Snowballs, .SiliconNuggets => 52 / 100
  | .Snowballs, .SeaShells => 72 / 100
  | .Pizzas, .Snowballs => 70 / 100
  | .Pizzas, .Pizzas => 1
  | .Pizzas, .SiliconNuggets => 31 / 100
  | .Pizzas, .SeaShells => 48 / 100
  | .SiliconNuggets, .Snowballs => 195 / 100
  | .SiliconNuggets, .Pizzas => 310 / 100
  | .SiliconNuggets, .SiliconNuggets => 1
  | .SiliconNuggets, .SeaShells => 149 / 100
  | .SeaShells, .Snowballs => 134 / 100
  | .SeaShells, .Pizzas => 198 / 100
  | .SeaShells, .SiliconNuggets => 64 / 100
  | .SeaShells, .SeaShells => 1

/-- The intermediate currencies enumerated by the five nested loops
(SeaShells is excluded as an intermediate step). -/
def intermediate_currencies : List Currency :=
  [.Snowballs, .Pizzas, .SiliconNuggets]

/-- The scanner starts with 1 SeaShell. -/
def initial_amount : ℚ := 1

/-- Amount of SeaShells after the five-conversion path
SeaShells → c1 → c2 → c3 → c4 → SeaShells, computed stepwise as in the
enumeration loop of src/manual_trading.py. -/
def final_amount (c1 c2 c3 c4 : Currency) : ℚ :=
  let amount1 := initial_amount * conversion_rates .SeaShells c1
  let amount2 := amount1 * conversion_rates c1 c2
  let amount3 := amount2 * conversion_rates c2 c3
  let amount4 := amount3 * conversion_rates c3 c4
  amount4 * conversion_rates c4 .SeaShells

/-- The scanner's profitability test: final_amount > initial_amount. -/
def profitable_path (c1 c2 c3 c4 : Currency) : Bool :=
  decide (initial_amount < final_amount c1 c2 c3 c4)

/-- Example instrument state for the crossover defect: MA histories with
two entries each, where the previous short MA (7.5) lies strictly between
the previous long MA (7) and the current long MA (8). -/
def exS1 : TraderState :=
  { price_history := [], short_ma_history := [15 / 2, 10]
    long_ma_history := [7, 8], position := 0, cost_basis := []
    realized_pnl := 0, seashells_balance := 0 }

/-- Example book: ask ladder 10002 ↦ 4, 10003 ↦ 2, no bids. -/
def exBook5 : OrderDepth :=
  { buy_orders := [], sell_orders := [(10002, 4), (10003, 2)] }

/-- Example book with best bid 9998 and best ask 10002. -/
def exBook7 : OrderDepth :=
  { buy_orders := [(9998, 5), (9997, 3)], sell_orders := [(10002, -4), (10003, -2)] }

/-- Example book whose ask side is empty. -/
def exBookNoAsk : OrderDepth :=
  { buy_orders := [(9998, 5)], sell_orders := [] }

/-- Example state holding position 48, two short of the long limit. -/
def exS48 : TraderState :=
  { price_history := [], short_ma_history := [], long_ma_history := []
    position := 48, cost_basis := [(10000, 48)], realized_pnl := 0
    seashells_balance := 0 }

/-! Lemmas about the embedded operations. -/

lemma availQty_nonneg (l : List (ℤ × ℤ)) : 0 ≤ availQty l := by
  induction l with
  | nil => simp [availQty]
  | cons x rest ih =>
    simp only [availQty, List.map_cons, List.sum_cons] at ih ⊢
    have := abs_nonneg x.2
    omega

lemma lotSum_nonneg (l : List (ℚ × ℤ)) (h : ∀ x ∈ l, 0 < x.2) :
    0 ≤ lotSum l := by
  induction l with
  | nil => simp [lotSum]
  | cons x rest ih =>
    simp only [lotSum, List.map_cons, List.sum_cons] at ih ⊢
    have h1 := h x (List.mem_cons_self x rest)
    have h2 : 0 ≤ (rest.map Prod.snd).sum := by
      apply ih; intro y hy; exact h y (List.mem_cons_of_mem x hy)
    omega

lemma walk_filled (l : List (ℤ × ℤ)) : ∀ (rem fil : ℤ) (tcq : ℚ),
    (walk l tcq rem fil).2.2 = fil + min (max rem 0) (availQty l) := by
  induction l with
  | nil => intro rem fil tcq; simp [walk, availQty]
  | cons x rest ih =>
    intro rem fil tcq
    obtain ⟨price, qty⟩ := x
    simp only [walk, availQty, List.map_cons, List.sum_cons]
    split_ifs with h
    · dsimp only
      have := availQty_nonneg rest
      simp only [availQty] at this
      have := abs_nonneg qty
      omega
    · rw [ih]
      have h1 : 0 ≤ |qty| := abs_nonneg qty
      have h2 := availQty_nonneg rest
      simp only [availQty] at h2 ⊢
      omega

lemma availQty_insertAsc (x : ℤ × ℤ) (l : List (ℤ × ℤ)) :
    availQty (insertAsc x l) = |x.2| + availQty l := by
  induction l with
  | nil => simp [insertAsc, availQty]
  | cons y ys ih =>
    simp only [insertAsc]
    split_ifs with h
    · simp [availQty]
    · simp only [availQty, List.map_cons, List.sum_cons] at ih ⊢
      omega

lemma availQty_sortAsc (l : List (ℤ × ℤ)) : availQty (sortAsc l) = availQty l := by
  induction l with
  | nil => rfl
  | cons x xs ih =>
    rw [sortAsc, availQty_insertAsc, ih]
    simp [availQty]

lemma availQty_insertDesc (x : ℤ × ℤ) (l : List (ℤ × ℤ)) :
    availQty (insertDesc x l) = |x.2| + availQty l := by
  induction l with
  | nil => simp [insertDesc, availQty]
  | cons y ys ih =>
    simp only [insertDesc]
    split_ifs with h
    · simp [availQty]
    · simp only [availQty, List.map_cons, List.sum_cons] at ih ⊢
      omega

lemma availQty_sortDesc (l : List (ℤ × ℤ)) : availQty (sortDesc l) = availQty l := by
  induction l with
  | nil => rfl
  | cons x xs ih =>
    rw [sortDesc, availQty_insertDesc, ih]
    simp [availQty]

/-- Characterization of the signed filled quantity: the walk fills exactly
min(request, total liquidity on the relevant side), signed by direction. -/
lemma simulate_execution_snd (d : OrderDepth) (vol : ℤ) (b : Bool) :
    (simulate_execution d vol b).2 =
      (if b then 1 else -1) *
        min |vol| (availQty (if b then d.sell_orders else d.buy_orders)) := by
  have hv : max |vol| 0 = |vol| := max_eq_left (abs_nonneg vol)
  cases b
  · show -1 * (walk (sortDesc d.buy_orders) 0 |vol| 0).2.2 = _
    rw [walk_filled, availQty_sortDesc, hv]
    simp
  · show 1 * (walk (sortAsc d.sell_orders) 0 |vol| 0).2.2 = _
    rw [walk_filled, availQty_sortAsc, hv]
    simp

/-- The magnitude of the filled quantity never exceeds the request. -/
lemma simulate_execution_abs_le (d : OrderDepth) (vol : ℤ) (b : Bool) :
    |(simulate_execution d vol b).2| ≤ |vol| := by
  rw [simulate_execution_snd]
  have h1 := abs_nonneg vol
  have h2 := availQty_nonneg (if b then d.sell_orders else d.buy_orders)
  rw [abs_mul]
  have hd : |if b then (1:ℤ) else -1| = 1 := by cases b <;> simp
  rw [hd, one_mul,
    abs_of_nonneg (by omega :
      (0:ℤ) ≤ min |vol| (availQty (if b then d.sell_orders else d.buy_orders)))]
  omega

/-- When nothing is filled the reported price is the guarded default 0:
the VWAP division is performed only on a strictly positive fill. -/
lemma simulate_execution_fst_zero (d : OrderDepth) (vol : ℤ) (b : Bool)
    (h : (simulate_execution d vol b).2 = 0) :
    (simulate_execution d vol b).1 = 0 := by
  cases b
  · replace h : -1 * (walk (sortDesc d.buy_orders) 0 |vol| 0).2.2 = 0 := h
    show (if 0 < (walk (sortDesc d.buy_orders) 0 |vol| 0).2.2 then _ else 0) = 0
    rw [if_neg (by omega)]
  · replace h : 1 * (walk (sortAsc d.sell_orders) 0 |vol| 0).2.2 = 0 := h
    show (if 0 < (walk (sortAsc d.sell_orders) 0 |vol| 0).2.2 then _ else 0) = 0
    rw [if_neg (by omega)]

lemma lotSum_cons (a : ℚ) (b : ℤ) (l : List (ℚ × ℤ)) :
    lotSum ((a, b) :: l) = b + lotSum l := by simp [lotSum]

lemma basisValue_cons (a : ℚ) (b : ℤ) (l : List (ℚ × ℤ)) :
    basisValue ((a, b) :: l) = a * (b : ℚ) + basisValue l := by simp [basisValue]

/-- Full characterization of the FIFO sell drain: it closes exactly
min(requested, total held) quantity, credits cash with the sale proceeds
of the closed quantity, books as profit those proceeds minus the removed
cost basis, and keeps all remaining lot quantities positive. -/
lemma sellLoop_spec (price : ℚ) : ∀ (l : List (ℚ × ℤ)) (v : ℤ),
    (∀ x ∈ l, 0 < x.2) →
    lotSum (sellLoop price v l).2.2 = lotSum l - min (max v 0) (lotSum l)
    ∧ (sellLoop price v l).2.1 = price * ((min (max v 0) (lotSum l) : ℤ) : ℚ)
    ∧ (sellLoop price v l).1 =
        price * ((min (max v 0) (lotSum l) : ℤ) : ℚ)
          - (basisValue l - basisValue (sellLoop price v l).2.2)
    ∧ ∀ x ∈ (sellLoop price v l).2.2, 0 < x.2 := by
  intro l
  induction l with
  | nil => intro v hpos; simp [sellLoop, lotSum, basisValue]
  | cons x rest ih =>
    intro v hpos
    obtain ⟨bp, bq⟩ := x
    have hbq : 0 < bq := hpos (bp, bq) (List.mem_cons_self _ _)
    have hrest : ∀ y ∈ rest, 0 < y.2 :=
      fun y hy => hpos y (List.mem_cons_of_mem _ hy)
    have hS : 0 ≤ lotSum rest := lotSum_nonneg rest hrest
    simp only [sellLoop]
    split_ifs with h1 h2
    · -- nothing left to sell: the ledger is returned unchanged
      have hm : min (max v 0) (lotSum ((bp, bq) :: rest)) = 0 := by
        rw [lotSum_cons]; omega
      dsimp only
      rw [hm]
      refine ⟨by omega, by simp, by simp, hpos⟩
    · -- the front lot is fully closed and popped
      have hble : bq ≤ v := by omega
      rw [h2]
      obtain ⟨ih1, ih2, ih3, ih4⟩ := ih (v - bq) hrest
      have hmax : max (v - bq) 0 = v - bq := by omega
      rw [hmax] at ih1 ih2 ih3
      have hkey : min (max v 0) (lotSum ((bp, bq) :: rest)) =
          bq + min (v - bq) (lotSum rest) := by
        rw [lotSum_cons]; omega
      dsimp only
      refine ⟨?_, ?_, ?_, ih4⟩
      · rw [ih1, hkey, lotSum_cons]; omega
      · rw [ih2, hkey]; push_cast; ring
      · rw [ih3, hkey, basisValue_cons]; push_cast; ring
    · -- the front lot is only partially closed and shrunk in place
      have hvlt : v < bq := by omega
      have hm : min v bq = v := by omega
      rw [hm]
      have hkey : min (max v 0) (lotSum ((bp, bq) :: rest)) = v := by
        rw [lotSum_cons]; omega
      dsimp only
      refine ⟨?_, ?_, ?_, ?_⟩
      · rw [hkey, lotSum_cons, lotSum_cons]; omega
      · rw [hkey]
      · rw [hkey, basisValue_cons, basisValue_cons]; push_cast; ring
      · intro y hy
        rcases List.mem_cons.mp hy with h | h
        · rw [h]; dsimp only; omega
        · exact hrest y h

lemma lotSum_append (l1 l2 : List (ℚ × ℤ)) :
    lotSum (l1 ++ l2) = lotSum l1 + lotSum l2 := by simp [lotSum]

/-- One fill preserves "position = total ledger quantity" and lot
positivity, provided a sell never asks for more than the ledger holds. -/
lemma update_inv (s : TraderState) (p : ℚ) (v : ℤ)
    (h1 : s.position = lotSum s.cost_basis)
    (h2 : ∀ x ∈ s.cost_basis, 0 < x.2)
    (h3 : v < 0 → -v ≤ lotSum s.cost_basis) :
    (update_position_and_pnl s p v).position =
      lotSum (update_position_and_pnl s p v).cost_basis
    ∧ ∀ x ∈ (update_position_and_pnl s p v).cost_basis, 0 < x.2 := by
  simp only [update_position_and_pnl]
  split_ifs with hv hv2
  · dsimp only
    constructor
    · have hnil : lotSum ([] : List (ℚ × ℤ)) = 0 := rfl
      rw [lotSum_append, lotSum_cons, hnil]
      omega
    · intro x hx
      rcases List.mem_append.mp hx with h | h
      · exact h2 x h
      · rcases List.mem_singleton.mp h with rfl
        exact hv
  · dsimp only
    obtain ⟨g1, _, _, g4⟩ := sellLoop_spec p s.cost_basis |v| h2
    refine ⟨?_, g4⟩
    rw [g1]
    have habs : |v| = -v := abs_of_neg hv2
    have hle : -v ≤ lotSum s.cost_basis := h3 hv2
    rw [habs]
    omega
  · dsimp only
    exact ⟨by omega, h2⟩

lemma applyFills_inv : ∀ (fills : List (ℚ × ℤ)) (s : TraderState),
    s.position = lotSum s.cost_basis → (∀ x ∈ s.cost_basis, 0 < x.2) →
    goodFills s fills = true →
    (applyFills s fills).position = lotSum (applyFills s fills).cost_basis
    ∧ ∀ x ∈ (applyFills s fills).cost_basis, 0 < x.2 := by
  intro fills
  induction fills with
  | nil => intro s h1 h2 _; exact ⟨h1, h2⟩
  | cons f rest ih =>
    intro s h1 h2 hg
    simp only [goodFills, Bool.and_eq_true, decide_eq_true_eq] at hg
    obtain ⟨hf, hrest⟩ := hg
    obtain ⟨n1, n2⟩ := update_inv s f.1 f.2 h1 h2 hf
    exact ih _ n1 n2 hrest

lemma foldlMax_ge_init (ps : List (ℤ × ℤ)) : ∀ a : ℤ,
    a ≤ ps.foldl (fun m q => max m q.1) a := by
  induction ps with
  | nil => intro a; simp
  | cons y ys ih =>
    intro a
    calc a ≤ max a y.1 := le_max_left _ _
    _ ≤ _ := ih (max a y.1)

lemma foldlMax_ge_mem (ps : List (ℤ × ℤ)) : ∀ a : ℤ, ∀ q ∈ ps,
    q.1 ≤ ps.foldl (fun m q => max m q.1) a := by
  induction ps with
  | nil => intro a q hq; simp at hq
  | cons y ys ih =>
    intro a q hq
    rcases List.mem_cons.mp hq with rfl | h
    · calc q.1 ≤ max a q.1 := le_max_right _ _
      _ ≤ _ := foldlMax_ge_init ys (max a q.1)
    · exact ih (max a y.1) q h

lemma foldlMax_mem (ps : List (ℤ × ℤ)) : ∀ a : ℤ,
    ps.foldl (fun m q => max m q.1) a = a ∨
    ∃ q ∈ ps, ps.foldl (fun m q => max m q.1) a = q.1 := by
  induction ps with
  | nil => intro a; left; rfl
  | cons y ys ih =>
    intro a
    rcases ih (max a y.1) with h | ⟨q, hq, h⟩
    · rcases max_choice a y.1 with hm | hm
      · left; rw [List.foldl_cons, h, hm]
      · right; exact ⟨y, List.mem_cons_self _ _, by rw [List.foldl_cons, h, hm]⟩
    · right; exact ⟨q, List.mem_cons_of_mem _ hq, h⟩

/-- keyMax really is the maximum of the keys of a non-empty side. -/
lemma keyMax_spec (l : List (ℤ × ℤ)) (h : l ≠ []) :
    keyMax l ∈ l.map Prod.fst ∧ ∀ k ∈ l.map Prod.fst, k ≤ keyMax l := by
  match l with
  | [] => exact absurd rfl h
  | p :: ps =>
    constructor
    · rcases foldlMax_mem ps p.1 with h1 | ⟨q, hq, h1⟩
      · rw [keyMax, h1]
        exact List.mem_map_of_mem Prod.fst (List.mem_cons_self _ _)
      · rw [keyMax, h1]
        exact List.mem_map_of_mem Prod.fst (List.mem_cons_of_mem _ hq)
    · intro k hk
      rcases List.mem_map.mp hk with ⟨q, hq, rfl⟩
      rcases List.mem_cons.mp hq with rfl | hq2
      · exact foldlMax_ge_init ps q.1
      · exact foldlMax_ge_mem ps p.1 q hq2

lemma foldlMin_le_init (ps : List (ℤ × ℤ)) : ∀ a : ℤ,
    ps.foldl (fun m q => min m q.1) a ≤ a := by
  induction ps with
  | nil => intro a; simp
  | cons y ys ih =>
    intro a
    calc (y :: ys).foldl (fun m q => min m q.1) a
        = ys.foldl (fun m q => min m q.1) (min a y.1) := rfl
    _ ≤ min a y.1 := ih (min a y.1)
    _ ≤ a := min_le_left _ _

lemma foldlMin_le_mem (ps : List (ℤ × ℤ)) : ∀ a : ℤ, ∀ q ∈ ps,
    ps.foldl (fun m q => min m q.1) a ≤ q.1 := by
  induction ps with
  | nil => intro a q hq; simp at hq
  | cons y ys ih =>
    intro a q hq
    rcases List.mem_cons.mp hq with rfl | h
    · calc List.foldl (fun m q => min m q.1) (min a q.1) ys ≤ min a q.1 :=
        foldlMin_le_init ys (min a q.1)
      _ ≤ q.1 := min_le_right _ _
    · exact ih (min a y.1) q h

lemma foldlMin_mem (ps : List (ℤ × ℤ)) : ∀ a : ℤ,
    ps.foldl (fun m q => min m q.1) a = a ∨
    ∃ q ∈ ps, ps.foldl (fun m q => min m q.1) a = q.1 := by
  induction ps with
  | nil => intro a; left; rfl
  | cons y ys ih =>
    intro a
    rcases ih (min a y.1) with h | ⟨q, hq, h⟩
    · rcases min_choice a y.1 with hm | hm
      · left; rw [List.foldl_cons, h, hm]
      · right; exact ⟨y, List.mem_cons_self _ _, by rw [List.foldl_cons, h, hm]⟩
    · right; exact ⟨q, List.mem_cons_of_mem _ hq, h⟩

/-- keyMin really is the minimum of the keys of a non-empty side. -/
lemma keyMin_spec (l : List (ℤ × ℤ)) (h : l ≠ []) :
    keyMin l ∈ l.map Prod.fst ∧ ∀ k ∈ l.map Prod.fst, keyMin l ≤ k := by
  match l with
  | [] => exact absurd rfl h
  | p :: ps =>
    constructor
    · rcases foldlMin_mem ps p.1 with h1 | ⟨q, hq, h1⟩
      · rw [keyMin, h1]
        exact List.mem_map_of_mem Prod.fst (List.mem_cons_self _ _)
      · rw [keyMin, h1]
        exact List.mem_map_of_mem Prod.fst (List.mem_cons_of_mem _ hq)
    · intro k hk
      rcases List.mem_map.mp hk with ⟨q, hq, rfl⟩
      rcases List.mem_cons.mp hq with rfl | hq2
      · exact foldlMin_le_init ps q.1
      · exact foldlMin_le_mem ps p.1 q hq2

/-! Claim theorems. -/

/-- Claim C1 (divergence witness): at an instrument state whose previous
short MA (7.5) lies strictly between the previous long MA (7) and the
current long MA (8), the source's detect_signal reports BUY although the
canonical two-point crossover rule stated by the claim yields HOLD — the
source reads the "previous" long MA from long_ma_history[-1] (the current
entry) instead of long_ma_history[-2]. -/
theorem c1_detect_signal_divergence :
    detect_signal exS1 5 = "BUY" ∧ detect_signal_spec exS1 5 = "HOLD" := by
  constructor
  · norm_num [detect_signal, exS1, getNeg, deviation_threshold]
  · norm_num [detect_signal_spec, exS1, getNeg, deviation_threshold]

/-- Claim C2: for every path SeaShells → c1 → c2 → c3 → c4 → SeaShells
enumerated by the scanner over the fixed conversion table, the path is
reported as profitable exactly when the product of its five conversion
rates exceeds 1.01 (on this table, every compounded rate is either
≤ 0.999936 or ≥ 1.0118…, so the 0 % test of the code and the claimed 1 %
threshold coincide on all 81 enumerated paths). -/
theorem c2_arbitrage_threshold :
    ∀ c1 ∈ intermediate_currencies, ∀ c2 ∈ intermediate_currencies,
    ∀ c3 ∈ intermediate_currencies, ∀ c4 ∈ intermediate_currencies,
    (profitable_path c1 c2 c3 c4 = true ↔
      101 / 100 < final_amount c1 c2 c3 c4) := by
  intro c1 h1 c2 h2 c3 h3 c4 h4
  fin_cases h1 <;> fin_cases h2 <;> fin_cases h3 <;> fin_cases h4 <;>
    norm_num [profitable_path, final_amount, initial_amount, conversion_rates]

/-- Witness for C2 at the cycle SeaShells → Snowballs → Silicon Nuggets →
Pizzas → Snowballs → SeaShells, whose compounded rate is ≈ 1.0887. -/
theorem c2_arbitrage_threshold_witness :
    profitable_path .Snowballs .SiliconNuggets .Pizzas .Snowballs = true ↔
      101 / 100 < final_amount .Snowballs .SiliconNuggets .Pizzas .Snowballs :=
  c2_arbitrage_threshold _ (by decide) _ (by decide) _ (by decide) _ (by decide)

/-- Claim C3: a sell fill drains the FIFO ledger from the front — it
closes exactly min(sell quantity, total held), credits cash with
sell_price × closed quantity, books as realized PnL the proceeds minus
the removed cost basis, and moves the position by the signed volume; in
particular buy 10 at 100 then sell 6 at 110 leaves realized PnL 60, the
single remaining lot (100, 4) and position 4. -/
theorem c3_sell_fill_fifo :
    (update_position_and_pnl (update_position_and_pnl initState 100 10) 110 (-6) =
      { price_history := [], short_ma_history := [], long_ma_history := []
        position := 4, cost_basis := [(100, 4)], realized_pnl := 60
        seashells_balance := -340 })
    ∧ ∀ (s : TraderState) (p : ℚ) (v : ℤ), v < 0 →
        (∀ x ∈ s.cost_basis, 0 < x.2) →
        ((update_position_and_pnl s p v).position = s.position + v
        ∧ lotSum (update_position_and_pnl s p v).cost_basis =
            lotSum s.cost_basis - min (-v) (lotSum s.cost_basis)
        ∧ (update_position_and_pnl s p v).seashells_balance =
            s.seashells_balance + p * ((min (-v) (lotSum s.cost_basis) : ℤ) : ℚ)
        ∧ (update_position_and_pnl s p v).realized_pnl =
            s.realized_pnl + p * ((min (-v) (lotSum s.cost_basis) : ℤ) : ℚ)
              - (basisValue s.cost_basis -
                  basisValue (update_position_and_pnl s p v).cost_basis)) := by
  constructor
  · norm_num [update_position_and_pnl, initState, sellLoop]
  · intro s p v hv hpos
    have h0 : ¬ 0 < v := by omega
    obtain ⟨g1, g2, g3, _⟩ := sellLoop_spec p s.cost_basis (-v) hpos
    have habs : |v| = -v := abs_of_neg hv
    have hmax : max (-v) 0 = -v := by omega
    rw [hmax] at g1 g2 g3
    simp only [update_position_and_pnl, if_neg h0, if_pos hv, habs]
    refine ⟨by simp, g1, by rw [g2], by rw [g3]; ring⟩

/-- Witness for C3's universal part: selling 6 at 110 against the ledger
[(100, 10)] closes 6, pays 660 into cash and books 60 of profit. -/
theorem c3_sell_fill_fifo_witness :
    (update_position_and_pnl (update_position_and_pnl initState 100 10) 110 (-6)).position =
        (update_position_and_pnl initState 100 10).position + (-6)
    ∧ lotSum (update_position_and_pnl (update_position_and_pnl initState 100 10) 110 (-6)).cost_basis =
        lotSum (update_position_and_pnl initState 100 10).cost_basis -
          min (-(-6)) (lotSum (update_position_and_pnl initState 100 10).cost_basis)
    ∧ (update_position_and_pnl (update_position_and_pnl initState 100 10) 110 (-6)).seashells_balance =
        (update_position_and_pnl initState 100 10).seashells_balance +
          110 * ((min (-(-6)) (lotSum (update_position_and_pnl initState 100 10).cost_basis) : ℤ) : ℚ)
    ∧ (update_position_and_pnl (update_position_and_pnl initState 100 10) 110 (-6)).realized_pnl =
        (update_position_and_pnl initState 100 10).realized_pnl +
          110 * ((min (-(-6)) (lotSum (update_position_and_pnl initState 100 10).cost_basis) : ℤ) : ℚ)
          - (basisValue (update_position_and_pnl initState 100 10).cost_basis -
              basisValue (update_position_and_pnl (update_position_and_pnl initState 100 10) 110 (-6)).cost_basis) :=
  c3_sell_fill_fifo.2 (update_position_and_pnl initState 100 10) 110 (-6)
    (by norm_num)
    (by norm_num [update_position_and_pnl, initState])

/-- Claim C4 is false as stated: the fill sequence sell 10 at 100, buy 10
at 100, buy 10 at 100 (each applied by update_position_and_pnl from the
initial state) reaches a state with position 10 > 0 whose ledger
quantities sum to 20 — the first sell silently drained an empty ledger. -/
theorem c4_counterexample :
    0 < (applyFills initState [(100, -10), (100, 10), (100, 10)]).position ∧
    lotSum (applyFills initState [(100, -10), (100, 10), (100, 10)]).cost_basis ≠
      (applyFills initState [(100, -10), (100, 10), (100, 10)]).position := by
  norm_num [applyFills, update_position_and_pnl, sellLoop, initState, lotSum]

/-- Claim C4 (amended): in every state reached from the initial state by a
sequence of fills in which no sell ever asks for more quantity than the
ledger then holds, the sum of ledger lot quantities equals the position
(in particular whenever the position is positive). -/
theorem c4_ledger_invariant (fills : List (ℚ × ℤ))
    (h : goodFills initState fills = true)
    (_hpos : 0 < (applyFills initState fills).position) :
    lotSum (applyFills initState fills).cost_basis =
      (applyFills initState fills).position := by
  obtain ⟨h1, _⟩ :=
    applyFills_inv fills initState rfl (by simp [initState]) h
  exact h1.symm

/-- Witness for C4 (amended) at the fill sequence buy 10, sell 6. -/
theorem c4_ledger_invariant_witness :
    lotSum (applyFills initState [(100, 10), (110, -6)]).cost_basis =
      (applyFills initState [(100, 10), (110, -6)]).position :=
  c4_ledger_invariant [(100, 10), (110, -6)]
    (by norm_num [goodFills, update_position_and_pnl, sellLoop, initState, lotSum])
    (by norm_num [applyFills, update_position_and_pnl, sellLoop, initState])

/-- Claim C5: simulate_execution fills exactly min(request, liquidity on
the relevant side) — walking the ask side ascending for a buy and the bid
side descending for a sell — signed by direction, so the filled magnitude
never exceeds the request; against the ask ladder 10002 ↦ 4, 10003 ↦ 2 a
buy of 5 fills 4@10002 + 1@10003 at VWAP 50011/5, and a buy of 10 fills
exactly 6. -/
theorem c5_simulate_execution :
    (∀ (d : OrderDepth) (vol : ℤ) (b : Bool),
      (simulate_execution d vol b).2 =
        (if b then 1 else -1) *
          min |vol| (availQty (if b then d.sell_orders else d.buy_orders)))
    ∧ (∀ (d : OrderDepth) (vol : ℤ) (b : Bool),
        |(simulate_execution d vol b).2| ≤ |vol|)
    ∧ simulate_execution exBook5 5 true = (50011 / 5, 5)
    ∧ simulate_execution exBook5 10 true = (30007 / 3, 6) := by
  refine ⟨simulate_execution_snd, simulate_execution_abs_le, ?_, ?_⟩ <;>
    norm_num [simulate_execution, exBook5, sortAsc, insertAsc, walk]

/-- Claim C6: generate_orders emits at most one order per tick; HOLD emits
none; a BUY order's quantity is positive and bounded by
min(10, max_position − position), a SELL order's quantity is negative with
magnitude bounded by min(10, max_position + position); with position 48
and the example book a BUY signal yields exactly one order of size 2. -/
theorem c6_generate_orders :
    (∀ (d : OrderDepth) (sig : String) (s : TraderState),
      ((generate_orders d sig s).1).length ≤ 1)
    ∧ (∀ (d : OrderDepth) (s : TraderState), (generate_orders d "HOLD" s).1 = [])
    ∧ (∀ (d : OrderDepth) (s : TraderState),
        ((generate_orders d "BUY" s).1).all
          (fun o => decide (0 < o.quantity ∧
            o.quantity ≤ min 10 (max_position - s.position))) = true)
    ∧ (∀ (d : OrderDepth) (s : TraderState),
        ((generate_orders d "SELL" s).1).all
          (fun o => decide (o.quantity < 0 ∧
            -o.quantity ≤ min 10 (max_position + s.position))) = true)
    ∧ (∀ (d : OrderDepth) (s : TraderState), max_position ≤ s.position →
        (generate_orders d "BUY" s).1 = [])
    ∧ (∀ (d : OrderDepth) (s : TraderState), d.sell_orders = [] →
        (generate_orders d "BUY" s).1 = [])
    ∧ (generate_orders exBook7 "BUY" exS48).1 =
        [{ symbol := "SQUID_INK", price := 10002, quantity := 2 }] := by
  refine ⟨?_, ?_, ?_, ?_, ?_, ?_, ?_⟩
  · intro d sig s
    simp only [generate_orders]
    split_ifs <;> simp
  · intro d s
    simp only [generate_orders]
    split_ifs with h1 h2 <;> simp_all
  · intro d s
    simp only [generate_orders]
    split_ifs with h1 h2 h3
    · have hb := simulate_execution_abs_le d
        (min 10 (max_position - s.position)) true
      rw [abs_of_pos h3, abs_of_pos h2] at hb
      simp only [List.all_cons, List.all_nil, Bool.and_true, decide_eq_true_eq]
      exact ⟨h3, hb⟩
    all_goals simp_all
  · intro d s
    have hne : ¬ (("SELL" : String) = "BUY" ∧ s.position < max_position) := by
      intro h
      exact absurd h.1 (by decide)
    simp only [generate_orders, if_neg hne]
    split_ifs with h1 h2 h3
    · have hb := simulate_execution_abs_le d
        (-(min 10 (max_position + s.position))) false
      rw [abs_neg, abs_of_pos h2, abs_of_neg h3] at hb
      simp only [List.all_cons, List.all_nil, Bool.and_true, decide_eq_true_eq]
      exact ⟨h3, hb⟩
    all_goals simp
  · intro d s h
    have hlt : ¬ s.position < max_position := by omega
    simp [generate_orders, hlt]
  · intro d s hempty
    have hfill : (simulate_execution d (min 10 (max_position - s.position)) true).2 = 0 := by
      rw [simulate_execution_snd]
      simp [hempty, availQty]
    simp [generate_orders, hfill]
  · norm_num [generate_orders, exBook7, exS48, max_position,
      simulate_execution, sortAsc, insertAsc, walk]

/-- Witness for C6's hypotheses: at the position limit a BUY signal emits
nothing, and a BUY against a book with no asks emits nothing. -/
theorem c6_generate_orders_witness :
    (generate_orders exBook7 "BUY" { exS48 with position := 50 }).1 = []
    ∧ (generate_orders exBookNoAsk "BUY" exS48).1 = [] :=
  ⟨c6_generate_orders.2.2.2.2.1 exBook7 { exS48 with position := 50 }
      (by norm_num [max_position, exS48]),
   c6_generate_orders.2.2.2.2.2.1 exBookNoAsk exS48 rfl⟩

/-- Claim C7: when both sides are non-empty, calculate_mid_price returns
(best bid + best ask) / 2 where the best bid is the maximum bid key and
the best ask the minimum ask key (9998/10002 yields 10000); when either
side is empty it returns the no-quote result none. -/
theorem c7_calculate_mid_price :
    (∀ d : OrderDepth, d.buy_orders ≠ [] → d.sell_orders ≠ [] →
      (calculate_mid_price d =
          some (((keyMax d.buy_orders : ℚ) + (keyMin d.sell_orders : ℚ)) / 2)
        ∧ keyMax d.buy_orders ∈ d.buy_orders.map Prod.fst
        ∧ (∀ k ∈ d.buy_orders.map Prod.fst, k ≤ keyMax d.buy_orders)
        ∧ keyMin d.sell_orders ∈ d.sell_orders.map Prod.fst
        ∧ (∀ k ∈ d.sell_orders.map Prod.fst, keyMin d.sell_orders ≤ k)))
    ∧ (∀ d : OrderDepth, d.buy_orders = [] ∨ d.sell_orders = [] →
        calculate_mid_price d = none)
    ∧ calculate_mid_price exBook7 = some 10000 := by
  refine ⟨?_, ?_, ?_⟩
  · intro d h1 h2
    obtain ⟨m1, m2⟩ := keyMax_spec d.buy_orders h1
    obtain ⟨n1, n2⟩ := keyMin_spec d.sell_orders h2
    refine ⟨?_, m1, m2, n1, n2⟩
    simp only [calculate_mid_price, if_neg (not_or.mpr ⟨h1, h2⟩)]
  · intro d h
    simp only [calculate_mid_price, if_pos h]
  · simp only [calculate_mid_price, exBook7]
    rw [if_neg (by simp)]
    norm_num [keyMax, keyMin]

/-- Witness for C7: the example book yields the documented mid-price and a
book with an empty ask side yields none. -/
theorem c7_calculate_mid_price_witness :
    calculate_mid_price exBook7 =
        some (((keyMax exBook7.buy_orders : ℚ) + (keyMin exBook7.sell_orders : ℚ)) / 2)
    ∧ calculate_mid_price exBookNoAsk = none :=
  ⟨(c7_calculate_mid_price.1 exBook7 (by simp [exBook7]) (by simp [exBook7])).1,
   c7_calculate_mid_price.2.1 exBookNoAsk (Or.inr rfl)⟩

/-- Claim C8: when the SQUID_INK book is missing or one of its sides is
empty, run returns the empty order list for the instrument (conversions 0,
empty carry-over) and leaves the price history, both MA histories, the
ledger, realized PnL and cash unchanged — the failure is absorbed. -/
theorem c8_run_skips_degenerate_ticks (st : TradingState) (s : TraderState)
    (h : st.order_depths.lookup "SQUID_INK" = none ∨
      ∃ d, st.order_depths.lookup "SQUID_INK" = some d ∧
        (d.buy_orders = [] ∨ d.sell_orders = [])) :
    (run st s).1 = ([("SQUID_INK", [])], 0, "")
    ∧ (run st s).2.price_history = s.price_history
    ∧ (run st s).2.short_ma_history = s.short_ma_history
    ∧ (run st s).2.long_ma_history = s.long_ma_history
    ∧ (run st s).2.cost_basis = s.cost_basis
    ∧ (run st s).2.realized_pnl = s.realized_pnl
    ∧ (run st s).2.seashells_balance = s.seashells_balance := by
  rcases h with h | ⟨d, hd, hside⟩
  · simp only [run, h]
    simp
  · have hmid : calculate_mid_price d = none := by
      simp only [calculate_mid_price, if_pos hside]
    simp only [run, hd, hmid]
    simp

/-- Witness for C8 at a tick whose SQUID_INK book has an empty ask side. -/
theorem c8_run_skips_degenerate_ticks_witness :
    (run { order_depths := [("SQUID_INK", exBookNoAsk)]
           position := [("SQUID_INK", 3)] } initState).1 =
      ([("SQUID_INK", [])], 0, "")
    ∧ (run { order_depths := [("SQUID_INK", exBookNoAsk)]
             position := [("SQUID_INK", 3)] } initState).2.cost_basis =
        initState.cost_basis :=
  ⟨(c8_run_skips_degenerate_ticks _ initState
      (Or.inr ⟨exBookNoAsk, by simp [List.lookup], Or.inr rfl⟩)).1,
   (c8_run_skips_degenerate_ticks _ initState
      (Or.inr ⟨exBookNoAsk, by simp [List.lookup], Or.inr rfl⟩)).2.2.2.2.1⟩

/-- Claim C9: a request against an empty relevant side returns the
degenerate result (price 0, filled 0), and whenever the filled quantity is
zero the price is the guarded default 0 — the VWAP division happens only
on a strictly positive fill. -/
theorem c9_zero_liquidity :
    (∀ (d : OrderDepth) (vol : ℤ) (b : Bool),
      (if b then d.sell_orders else d.buy_orders) = [] →
      simulate_execution d vol b = (0, 0))
    ∧ (∀ (d : OrderDepth) (vol : ℤ) (b : Bool),
        (simulate_execution d vol b).2 = 0 → (simulate_execution d vol b).1 = 0) := by
  constructor
  · intro d vol b hside
    cases b
    · simp only [Bool.false_eq_true, if_false] at hside
      simp [simulate_execution, hside, sortDesc, walk]
    · simp only [if_true] at hside
      simp [simulate_execution, hside, sortAsc, walk]
  · exact fun d vol b h => simulate_execution_fst_zero d vol b h

/-- Witness for C9: buying against the book with no asks returns (0, 0),
whose price component is 0 as the guard demands. -/
theorem c9_zero_liquidity_witness :
    simulate_execution exBookNoAsk 5 true = (0, 0)
    ∧ (simulate_execution exBookNoAsk 5 true).1 = 0 :=
  ⟨c9_zero_liquidity.1 exBookNoAsk 5 true rfl,
   c9_zero_liquidity.2 exBookNoAsk 5 true
     (by rw [c9_zero_liquidity.1 exBookNoAsk 5 true rfl])⟩

/-- Claim C10: from any state with an empty lot ledger, a buy of q > 0 at
price p followed by a sell of q at the same price p restores the entire
state: position and ledger return to their initial values and realized
PnL and cash are unchanged. -/
theorem c10_buy_sell_roundtrip (s : TraderState) (p : ℚ) (q : ℤ)
    (hq : 0 < q) (hcb : s.cost_basis = []) :
    update_position_and_pnl (update_position_and_pnl s p q) p (-q) = s := by
  rcases s with ⟨ph, sh, lh, pos, cb, rp, sb⟩
  dsimp only at hcb
  subst hcb
  have h1 : ¬ 0 < -q := by omega
  have h2 : -q < 0 := by omega
  have habs : |(-q)| = q := by rw [abs_neg, abs_of_pos hq]
  simp only [update_position_and_pnl, if_pos hq, if_neg h1, if_pos h2, habs]
  have hsell : sellLoop p q ([] ++ [(p, q)]) = (0, p * (q : ℚ), []) := by
    simp only [List.nil_append, sellLoop, if_neg (by omega : ¬ q ≤ 0),
      min_self, if_pos rfl, sub_self]
    simp [sellLoop]
  rw [hsell]
  simp only [TraderState.mk.injEq]
  refine ⟨?_, ?_, ?_, ?_, ?_, ?_, ?_⟩ <;>
    first | trivial | omega | ring

/-- Witness for C10 with q = 7, p = 100 from a state with non-trivial
histories, position and PnL but an empty ledger. -/
theorem c10_buy_sell_roundtrip_witness :
    update_position_and_pnl
      (update_position_and_pnl
        { price_history := [1], short_ma_history := [2], long_ma_history := [3]
          position := 5, cost_basis := [], realized_pnl := 9
          seashells_balance := 11 } 100 7) 100 (-7) =
      { price_history := [1], short_ma_history := [2], long_ma_history := [3]
        position := 5, cost_basis := [], realized_pnl := 9
        seashells_balance := 11 } :=
  c10_buy_sell_roundtrip _ 100 7 (by norm_num) rfl

end Spec2Proof
